import Mathlib

set_option maxRecDepth 10000

/-!
Verification of the URL mapping and deduplication engine of the
`short-url-website` repository (Express/TypeScript URL shortener).

The development shallowly embeds the core of `src/index.ts` (the
`/api/shorten` and `/s/:shortId` handlers and the storage-backend probe)
and of `src/migrations/url-reverse-index.ts` (the `hashUrl` digest and the
reverse-index backfill) as pure Lean functions over an explicit key-value
store state, and proves the spec's testable properties about them.
-/

set_option autoImplicit false

namespace ShortUrl

/-! ## MD5 (the digest used by `hashUrl` in `src/migrations/url-reverse-index.ts`)

`hashUrl` is `createHash('md5').update(url).digest('hex')` from node's
`crypto` library.  We embed MD5 (RFC 1321) directly, operating on the
UTF-8 bytes of the input string, producing the lowercase hex digest. -/

namespace Md5

/-- `2^32 - 1`, the mask for 32-bit words. -/
def mask32 : Nat := 4294967295

/-- Addition modulo `2^32`. -/
def add32 (a b : Nat) : Nat := (a + b) % 4294967296

/-- Bitwise complement on 32-bit words. -/
def not32 (a : Nat) : Nat := Nat.xor a mask32

/-- Left rotation of a 32-bit word by `s` places (`0 < s < 32`). -/
def rotl32 (x s : Nat) : Nat :=
  ((x <<< s) &&& mask32) ||| (x >>> (32 - s))

/-- The 64 MD5 sine-derived constants `K[i] = floor(2^32 * |sin(i+1)|)`. -/
def kTable : List Nat :=
  [0xd76aa478, 0xe8c7b756, 0x242070db, 0xc1bdceee,
   0xf57c0faf, 0x4787c62a, 0xa8304613, 0xfd469501,
   0x698098d8, 0x8b44f7af, 0xffff5bb1, 0x895cd7be,
   0x6b901122, 0xfd987193, 0xa679438e, 0x49b40821,
   0xf61e2562, 0xc040b340, 0x265e5a51, 0xe9b6c7aa,
   0xd62f105d, 0x02441453, 0xd8a1e681, 0xe7d3fbc8,
   0x21e1cde6, 0xc33707d6, 0xf4d50d87, 0x455a14ed,
   0xa9e3e905, 0xfcefa3f8, 0x676f02d9, 0x8d2a4c8a,
   0xfffa3942, 0x8771f681, 0x6d9d6122, 0xfde5380c,
   0xa4beea44, 0x4bdecfa9, 0xf6bb4b60, 0xbebfbc70,
   0x289b7ec6, 0xeaa127fa, 0xd4ef3085, 0x04881d05,
   0xd9d4d039, 0xe6db99e5, 0x1fa27cf8, 0xc4ac5665,
   0xf4292244, 0x432aff97, 0xab9423a7, 0xfc93a039,
   0x655b59c3, 0x8f0ccc92, 0xffeff47d, 0x85845dd1,
   0x6fa87e4f, 0xfe2ce6e0, 0xa3014314, 0x4e0811a1,
   0xf7537e82, 0xbd3af235, 0x2ad7d2bb, 0xeb86d391]

/-- The 64 per-round left-rotation amounts. -/
def sTable : List Nat :=
  [7, 12, 17, 22, 7, 12, 17, 22, 7, 12, 17, 22, 7, 12, 17, 22,
   5,  9, 14, 20, 5,  9, 14, 20, 5,  9, 14, 20, 5,  9, 14, 20,
   4, 11, 16, 23, 4, 11, 16, 23, 4, 11, 16, 23, 4, 11, 16, 23,
   6, 10, 15, 21, 6, 10, 15, 21, 6, 10, 15, 21, 6, 10, 15, 21]

/-- MD5 padding: append `0x80`, zero bytes to reach 56 mod 64, then the
bit length as a 64-bit little-endian quantity. -/
def pad (msg : List Nat) : List Nat :=
  let len := msg.length
  let zeros := (120 - ((len + 1) % 64)) % 64
  let bits := (len * 8) % 18446744073709551616
  msg ++ [128] ++ List.replicate zeros 0 ++
    (List.range 8).map (fun i => (bits >>> (8 * i)) % 256)

/-- Split a byte list into 64-byte chunks, carrying the current partial
chunk in reverse together with its length (structural recursion so that
the kernel can evaluate digests). -/
def chunksAux : List Nat → List Nat → Nat → List (List Nat)
  | [], cur, _ => if cur.isEmpty then [] else [cur.reverse]
  | b :: rest, cur, n =>
    if n = 63 then (b :: cur).reverse :: chunksAux rest [] 0
    else chunksAux rest (b :: cur) (n + 1)

/-- Split the padded message into 64-byte chunks. -/
def toChunks (l : List Nat) : List (List Nat) :=
  chunksAux l [] 0

/-- The `j`-th little-endian 32-bit word of a 64-byte chunk. -/
def word (chunk : List Nat) (j : Nat) : Nat :=
  chunk.getD (4 * j) 0 + 256 * chunk.getD (4 * j + 1) 0 +
    65536 * chunk.getD (4 * j + 2) 0 + 16777216 * chunk.getD (4 * j + 3) 0

/-- One of the 64 MD5 rounds. -/
def md5Round (chunk : List Nat) (st : Nat × Nat × Nat × Nat) (i : Nat) :
    Nat × Nat × Nat × Nat :=
  let a := st.1
  let b := st.2.1
  let c := st.2.2.1
  let d := st.2.2.2
  let fg : Nat × Nat :=
    if i < 16 then ((b &&& c) ||| (not32 b &&& d), i)
    else if i < 32 then ((d &&& b) ||| (not32 d &&& c), (5 * i + 1) % 16)
    else if i < 48 then (Nat.xor (Nat.xor b c) d, (3 * i + 5) % 16)
    else (Nat.xor c (b ||| not32 d), (7 * i) % 16)
  let f := (fg.1 + a + kTable.getD i 0 + word chunk fg.2) % 4294967296
  (d, add32 b (rotl32 f (sTable.getD i 0)), b, c)

/-- Process one 64-byte chunk, updating the running state. -/
def processChunk (st : Nat × Nat × Nat × Nat) (chunk : List Nat) :
    Nat × Nat × Nat × Nat :=
  let r := (List.range 64).foldl (md5Round chunk) st
  (add32 st.1 r.1, add32 st.2.1 r.2.1, add32 st.2.2.1 r.2.2.1,
   add32 st.2.2.2 r.2.2.2)

/-- Lowercase hex digit for a value below 16. -/
def hexDigit (n : Nat) : Char :=
  if n < 10 then Char.ofNat (48 + n) else Char.ofNat (87 + n)

/-- Two lowercase hex digits of a byte. -/
def byteHex (b : Nat) : String :=
  String.mk [hexDigit (b / 16 % 16), hexDigit (b % 16)]

/-- Hex rendering of a 32-bit word, least significant byte first. -/
def wordHexLE (w : Nat) : String :=
  byteHex (w % 256) ++ byteHex (w >>> 8 % 256) ++
    byteHex (w >>> 16 % 256) ++ byteHex (w >>> 24 % 256)

/-- The full MD5 digest of a byte sequence, as lowercase hex. -/
def md5Hex (msg : List Nat) : String :=
  let st := (toChunks (pad msg)).foldl processChunk
    (0x67452301, 0xefcdab89, 0x98badcfe, 0x10325476)
  wordHexLE st.1 ++ wordHexLE st.2.1 ++ wordHexLE st.2.2.1 ++
    wordHexLE st.2.2.2

/-- UTF-8 encoding of a single code point. -/
def encodeChar (n : Nat) : List Nat :=
  if n < 128 then [n]
  else if n < 2048 then [192 + n / 64, 128 + n % 64]
  else if n < 65536 then
    [224 + n / 4096, 128 + n / 64 % 64, 128 + n % 64]
  else
    [240 + n / 262144, 128 + n / 4096 % 64, 128 + n / 64 % 64, 128 + n % 64]

/-- The UTF-8 bytes of a string (what `crypto.update` hashes). -/
def utf8Bytes (s : String) : List Nat :=
  s.data.foldr (fun c acc => encodeChar c.toNat ++ acc) []

end Md5

/-- `hashUrl` from `src/migrations/url-reverse-index.ts`:
`createHash('md5').update(url).digest('hex')` — the lowercase hex MD5
digest of the URL string's UTF-8 bytes. -/
def hashUrl (url : String) : String :=
  Md5.md5Hex (Md5.utf8Bytes url)

/-! ## Data model

`UrlMapping` is the record from `src/types.ts`.  The key-value store is an
association list from keys to stored values.  A stored value is either a
plain string (`KVValue.str` — what the reverse index holds, and also any
blob that does not deserialize into a mapping) or a serialized `UrlMapping`
(`KVValue.obj` — what the forward keys hold; in the Redis backend this is
the `JSON.stringify` of the record, which `JSON.parse` inverts, and in the
Vercel KV backend it is the record itself). -/

/-- The `UrlMapping` interface from `src/types.ts`. -/
structure UrlMapping where
  originalUrl : String
  shortId : String
  createdAt : String
  deriving DecidableEq

/-- A value stored in the key-value store: a plain string, or a blob that
deserializes into a `UrlMapping`. -/
inductive KVValue where
  | str (s : String)
  | obj (m : UrlMapping)
  deriving DecidableEq

/-- JavaScript truthiness of a stored value (`!!shortId` in the handler):
an empty string is falsy, every other string and every object is truthy. -/
def KVValue.truthy : KVValue → Bool
  | .str s => !s.isEmpty
  | .obj _ => true

/-- The string the handler interpolates into `` `/s/${shortId}` `` when the
stored value is returned as the short id.  A stored object would coerce to
`"[object Object]"` (that branch is unreachable from states this program
writes, where reverse keys always hold raw id strings). -/
def KVValue.asShortId : KVValue → String
  | .str s => s
  | .obj _ => "[object Object]"

/-- `JSON.parse` of a stored blob, as used where the code deserializes a
forward mapping.  A `.str` value stands for a blob that does not
deserialize into a mapping. -/
def parseMapping : KVValue → Option UrlMapping
  | .str _ => none
  | .obj m => some m

/-- The shared key-value store (Redis database / Vercel KV namespace),
as an association list keyed by strings. -/
abbrev Store := List (String × KVValue)

/-- `get key`: the value stored at `key`, if any. -/
def Store.get : Store → String → Option KVValue
  | [], _ => none
  | (k, v) :: rest, key => if k = key then some v else Store.get rest key

/-- `set key value`: store `value` at `key`, overwriting any previous
value (Redis `SET` semantics). -/
def Store.set : Store → String → KVValue → Store
  | [], key, v => [(key, v)]
  | (k, w) :: rest, key, v =>
    if k = key then (key, v) :: rest else (k, w) :: Store.set rest key v

/-- `keys('*')`: all keys currently present. -/
def Store.keys (s : Store) : List String := s.map (·.1)

/-! ## URL validation

`new URL(url)` (the WHATWG URL parser from the node runtime, not code of
this repository) succeeds exactly on absolute URLs.  Modelled from the
spec: a "syntactically well-formed absolute URL" is a string beginning
with a scheme — an ASCII letter followed by letters, digits, `+`, `-` or
`.` — terminated by a colon. -/

/-- Characters allowed after the first character of a URL scheme. -/
def isSchemeChar (c : Char) : Bool :=
  c.isAlphanum || c = '+' || c = '-' || c = '.'

/-- Scan for the colon that terminates the scheme. -/
def schemeRest : List Char → Bool
  | [] => false
  | c :: rest => if c = ':' then true else isSchemeChar c && schemeRest rest

/-- Modelled from the spec: success of `new URL(url)` — the string starts
with an ASCII letter, followed by scheme characters up to a colon. -/
def isValidUrl (url : String) : Bool :=
  match url.data with
  | [] => false
  | c :: rest => c.isAlpha && schemeRest rest

/-- The reverse-index key for a URL: `` `url:${urlHash}` ``. -/
def reverseKey (url : String) : String := "url:" ++ hashUrl url

/-- Character-level helper for JavaScript `String.prototype.startsWith`. -/
def jsStartsWithAux : List Char → List Char → Bool
  | _, [] => true
  | [], _ :: _ => false
  | c :: cs, p :: ps => c = p && jsStartsWithAux cs ps

/-- JavaScript `key.startsWith(pre)` (runtime library behavior, embedded
structurally over the character list). -/
def jsStartsWith (s pre : String) : Bool :=
  jsStartsWithAux s.data pre.data

/-! ## The backend selector

`getStorageConfig` in `src/index.ts` (and the identical inline probe in
both route handlers) checks the Redis client first — it exists when
`KV_REST_API_URL` points at the local network Redis cache — and only when
that check does not select Redis does it probe Vercel KV (the primary
managed network KV service); when the probe that runs throws, the `catch`
falls through to no backend (the in-process fallback).  `redisPing = none`
models `redisClient.ping()` throwing, `some b` models it returning a value
of truthiness `b`; a thrown Redis ping is caught by the single `catch`, so
Vercel KV is then never probed. -/

/-- The three storage backends of the system. -/
inductive Backend where
  | redis
  | vercelKV
  | memory
  deriving DecidableEq

/-- The backend chosen by the probe sequence of `getStorageConfig` /
the inline probe in the route handlers. -/
def selectBackend (redisConfigured : Bool) (redisPing : Option Bool)
    (kvPingOk : Bool) : Backend :=
  if redisConfigured then
    match redisPing with
    | none => .memory
    | some true => .redis
    | some false => if kvPingOk then .vercelKV else .memory
  else if kvPingOk then .vercelKV else .memory

/-- Modelled from the spec: the selector as §4.3 words it — "primary
network KV service, then a local network cache service reachable via
configured address, then an in-process fallback map", returning the first
whose liveness probe answers. -/
def selectBackendSpec (redisConfigured : Bool) (redisPing : Option Bool)
    (kvPingOk : Bool) : Backend :=
  if kvPingOk then .vercelKV
  else if redisConfigured && redisPing == some true then .redis
  else .memory

/-! ## The `/api/shorten` handler (`resolveOrCreate`)

The handler validates the URL, probes for a live backend
(`storageUp = false` models every probe failing, which lands in the
memory-fallback branch), consults the reverse index, and either returns
the existing short id (`isExisting = true`, no writes) or generates a new
id and writes the forward mapping followed by the reverse mapping.
`newId` is the value `generateShortId()` (eight hex characters from
`crypto.randomBytes(4)`) would produce for this request, and `now` the
`new Date().toISOString()` timestamp. -/

/-- The JSON response of `/api/shorten` (the parts the claims speak
about; the handler renders the short id into `shortUrl`). -/
inductive ShortenResult where
  | invalidInput (msg : String)
  | fallbackShortened (shortId : String)
  | shortened (shortId : String) (isExisting : Bool)
  deriving DecidableEq

/-- The `/api/shorten` handler from `src/index.ts`. -/
def apiShorten (store : Store) (storageUp : Bool) (url newId now : String) :
    ShortenResult × Store :=
  if url.isEmpty then (.invalidInput "URL is required", store)
  else if !isValidUrl url then (.invalidInput "Invalid URL format", store)
  else if !storageUp then
    -- `const urlDatabase: UrlMapping[] = []; urlDatabase.push(newMapping)`:
    -- a fresh array local to this single request, dropped when the handler
    -- returns; the response is `{ shortUrl }` with no `isExisting` field.
    let _urlDatabase : List UrlMapping := [⟨url, newId, now⟩]
    (.fallbackShortened newId, store)
  else
    match store.get (reverseKey url) with
    | some v =>
      if v.truthy then (.shortened v.asShortId true, store)
      else
        (.shortened newId false,
          (store.set newId (.obj ⟨url, newId, now⟩)).set (reverseKey url)
            (.str newId))
    | none =>
      (.shortened newId false,
        (store.set newId (.obj ⟨url, newId, now⟩)).set (reverseKey url)
          (.str newId))

/-! ## The `/s/:shortId` handler (`lookup`) -/

/-- The response of `/s/:shortId`: a redirect to the stored original URL,
a 404, a 500 when no backend answers its probe, or a 500 from the outer
`catch` (a stored blob that fails to `JSON.parse`). -/
inductive ResolveResult where
  | redirect (url : String)
  | notFound
  | storeUnavailable
  | internalError
  deriving DecidableEq

/-- The `/s/:shortId` handler from `src/index.ts`.  When no backend
answers the probe it responds 500 `'Storage service not available'`; it
never writes to the store. -/
def apiResolve (store : Store) (storageUp : Bool) (shortId : String) :
    ResolveResult × Store :=
  if !storageUp then (.storeUnavailable, store)
  else
    match store.get shortId with
    | none => (.notFound, store)
    | some (.str s) =>
      if s.isEmpty then (.notFound, store) else (.internalError, store)
    | some (.obj m) => (.redirect m.originalUrl, store)

/-! ## The reverse-index backfill
(`src/migrations/url-reverse-index.ts`)

`migrateRedisData` lists every key, keeps those that do not start with
`url:`, and for each one reads the value, deserializes it inside a
`try`/`catch` (a failure is logged and the key skipped), and — when the
parsed record has a truthy `originalUrl` — writes the reverse entry
`` `url:${hashUrl(originalUrl)}` → shortId ``.  `migrateVercelKvData`
drains a cursor-paginated `scan` to collect the same filtered key list
(the fully drained enumeration is modelled as the store's key list) and
runs the same per-key loop, with its `try`/`catch` around the whole body
and the `mapping && mapping.originalUrl` guard instead of `JSON.parse`. -/

/-- One iteration of the `migrateRedisData` per-key loop: read the key,
skip falsy blobs, `JSON.parse` inside `try`/`catch` (a blob that fails to
parse is skipped), and write the reverse entry when the mapping has a
truthy `originalUrl`. -/
def backfillStep (s : Store) (key : String) : Store :=
  match s.get key with
  | none => s
  | some v =>
    if !v.truthy then s
    else
      match parseMapping v with
      | none => s
      | some m =>
        if m.originalUrl.isEmpty then s
        else s.set ("url:" ++ hashUrl m.originalUrl) (.str key)

/-- `migrateRedisData`: fold the per-key loop over all keys that do not
carry the `url:` reverse-index prefix. -/
def migrateRedisData (s : Store) : Store :=
  (s.keys.filter (fun k => !jsStartsWith k "url:")).foldl backfillStep s

/-- One iteration of the `migrateVercelKvData` per-key loop: the whole
body sits in a `try`/`catch`, and the reverse entry is written only when
`mapping && mapping.originalUrl` is truthy. -/
def kvBackfillStep (s : Store) (key : String) : Store :=
  match s.get key with
  | some (.obj m) =>
    if m.originalUrl.isEmpty then s
    else s.set ("url:" ++ hashUrl m.originalUrl) (.str key)
  | _ => s

/-- `migrateVercelKvData`: drain the paginated scan into the filtered key
list, then run the per-key loop. -/
def migrateVercelKvData (s : Store) : Store :=
  (s.keys.filter (fun k => !jsStartsWith k "url:")).foldl kvBackfillStep s

/-- The reverse entry a backfill iteration derives from a stored pair,
if any. -/
def toReverseEntry : String × KVValue → Option (String × KVValue)
  | (k, .obj m) =>
    if m.originalUrl.isEmpty then none
    else some ("url:" ++ hashUrl m.originalUrl, .str k)
  | (_, .str _) => none

/-- All reverse entries a backfill run derives from a list of stored
pairs, in order. -/
def reverseEntries (l : Store) : Store := l.filterMap toReverseEntry

/-- A store holding exactly the given forward mappings. -/
def mkStore (l : List (String × UrlMapping)) : Store :=
  l.map (fun p => (p.1, KVValue.obj p.2))

/-- The reverse entries corresponding to a list of forward mappings. -/
def revOf (l : List (String × UrlMapping)) : Store :=
  l.map (fun p => ("url:" ++ hashUrl p.2.originalUrl, KVValue.str p.1))

/-! ## Basic lemmas about the store and the helpers -/

theorem jsStartsWithAux_append (p rest : List Char) :
    jsStartsWithAux (p ++ rest) p = true := by
  induction p with
  | nil => simp [jsStartsWithAux]
  | cons c cs ih => simp [jsStartsWithAux, ih]

theorem jsStartsWith_append (pre s : String) :
    jsStartsWith (pre ++ s) pre = true := by
  simp [jsStartsWith, String.data_append, jsStartsWithAux_append]

theorem isEmpty_false_of_ne {s : String} (h : s ≠ "") : s.isEmpty = false := by
  cases hb : s.isEmpty
  · rfl
  · exact absurd ((String.isEmpty_iff s).mp hb) h

theorem Store.get_set_self (s : Store) (k : String) (v : KVValue) :
    (s.set k v).get k = some v := by
  induction s with
  | nil => simp [Store.set, Store.get]
  | cons p rest ih =>
    obtain ⟨a, b⟩ := p
    by_cases h : a = k <;> simp [Store.set, Store.get, h, ih]

theorem Store.get_set_ne (s : Store) (k k' : String) (v : KVValue)
    (h : k' ≠ k) : (s.set k v).get k' = s.get k' := by
  have hne : ¬ k = k' := fun hh => h hh.symm
  induction s with
  | nil => simp [Store.set, Store.get, hne]
  | cons p rest ih =>
    obtain ⟨a, b⟩ := p
    by_cases hh : a = k <;> simp [Store.set, Store.get, hh, ih, hne]

theorem Store.set_eq_of_get (s : Store) (k : String) (v : KVValue)
    (h : s.get k = some v) : s.set k v = s := by
  induction s with
  | nil => simp [Store.get] at h
  | cons p rest ih =>
    obtain ⟨a, b⟩ := p
    by_cases hh : a = k
    · subst hh
      simp [Store.get] at h
      simp [Store.set, h]
    · simp [Store.get, hh] at h
      simp [Store.set, hh, ih h]

theorem Store.get_append_some (s t : Store) (k : String) (v : KVValue)
    (h : s.get k = some v) : (s ++ t).get k = some v := by
  induction s with
  | nil => simp [Store.get] at h
  | cons p rest ih =>
    obtain ⟨a, b⟩ := p
    by_cases hh : a = k <;> simp_all [Store.get]

theorem Store.get_append_none (s t : Store) (k : String)
    (h : s.get k = none) : (s ++ t).get k = t.get k := by
  induction s with
  | nil => simp
  | cons p rest ih =>
    obtain ⟨a, b⟩ := p
    by_cases hh : a = k <;> simp_all [Store.get]

theorem Store.get_eq_none (s : Store) (k : String) (h : k ∉ s.keys) :
    s.get k = none := by
  induction s with
  | nil => simp [Store.get]
  | cons p rest ih =>
    obtain ⟨a, b⟩ := p
    simp [Store.keys, List.mem_cons, not_or] at h
    have h1 : a ≠ k := fun hh => h.1 hh.symm
    simpa [Store.get, h1] using ih (by simpa [Store.keys] using h.2)

theorem Store.set_eq_append (s : Store) (k : String) (v : KVValue)
    (h : s.get k = none) : s.set k v = s ++ [(k, v)] := by
  induction s with
  | nil => simp [Store.set]
  | cons p rest ih =>
    obtain ⟨a, b⟩ := p
    by_cases hh : a = k
    · simp [Store.get, hh] at h
    · simp_all [Store.set, Store.get, hh]

theorem Store.get_of_mem (s : Store) (p : String × KVValue)
    (hnd : s.keys.Nodup) (hp : p ∈ s) : s.get p.1 = some p.2 := by
  induction s with
  | nil => simp at hp
  | cons q rest ih =>
    obtain ⟨a, b⟩ := q
    simp [Store.keys, List.nodup_cons] at hnd
    rcases List.mem_cons.mp hp with h | h
    · subst h
      simp [Store.get]
    · have hne : a ≠ p.1 := by
        intro hh
        exact hnd.1 p.2 (by simpa [hh] using h)
      simpa [Store.get, hne] using ih (by simpa [Store.keys] using hnd.2) h

theorem Store.get_singleton_ne (p : String × KVValue) (k : String)
    (h : p.1 ≠ k) : Store.get [p] k = none := by
  obtain ⟨a, b⟩ := p
  simp at h
  simp [Store.get, h]

theorem Store.keys_append (s t : Store) :
    (s ++ t).keys = s.keys ++ t.keys := by
  simp [Store.keys]

theorem mkStore_keys (l : List (String × UrlMapping)) :
    (mkStore l).keys = l.map (·.1) := by
  simp [mkStore, Store.keys]

theorem revOf_keys (l : List (String × UrlMapping)) :
    (revOf l).keys = l.map (fun p => "url:" ++ hashUrl p.2.originalUrl) := by
  simp [revOf, Store.keys]

theorem urlPrefix_inj {a b : String} (h : "url:" ++ a = "url:" ++ b) :
    a = b := by
  have hd := congrArg String.data h
  simp only [String.data_append] at hd
  exact String.ext (List.append_cancel_left hd)

/-! ## How one backfill iteration behaves -/

theorem backfillStep_of_none (cur : Store) (k : String) (v : KVValue)
    (hget : cur.get k = some v) (hv : toReverseEntry (k, v) = none) :
    backfillStep cur k = cur := by
  rcases v with s | m
  · by_cases hs : s.isEmpty <;>
      simp [backfillStep, hget, KVValue.truthy, parseMapping, hs]
  · by_cases he : m.originalUrl.isEmpty
    · simp [backfillStep, hget, KVValue.truthy, parseMapping, he]
    · simp [toReverseEntry, he] at hv

theorem backfillStep_of_some (cur : Store) (k : String) (v : KVValue)
    (q : String × KVValue) (hget : cur.get k = some v)
    (hv : toReverseEntry (k, v) = some q) :
    backfillStep cur k = cur.set q.1 q.2 := by
  rcases v with s | m
  · simp [toReverseEntry] at hv
  · by_cases he : m.originalUrl.isEmpty
    · simp [toReverseEntry, he] at hv
    · simp [toReverseEntry, he] at hv
      subst hv
      simp [backfillStep, hget, KVValue.truthy, parseMapping, he]

/-! ## A full backfill run over a list of keys

`foldl_backfill_create` describes a run over keys whose reverse entries
are all still absent: each derived reverse entry is appended, in order.
`foldl_backfill_noop` describes a run over keys whose reverse entries are
already present with the same values: the store is left unchanged. -/

theorem foldl_backfill_create (todo : Store) : ∀ cur : Store,
    (∀ p ∈ todo, cur.get p.1 = some p.2) →
    (∀ p ∈ todo, ∀ q, toReverseEntry p = some q → cur.get q.1 = none) →
    ((reverseEntries todo).keys).Nodup →
    todo.keys.foldl backfillStep cur = cur ++ reverseEntries todo := by
  induction todo with
  | nil =>
    intro cur _ _ _
    simp [Store.keys, reverseEntries]
  | cons p rest ih =>
    intro cur h1 h3 h4
    have hget : cur.get p.1 = some p.2 := h1 p (List.mem_cons_self p rest)
    cases hv : toReverseEntry p with
    | none =>
      have hre : reverseEntries (p :: rest) = reverseEntries rest := by
        simp [reverseEntries, List.filterMap_cons, hv]
      have hstep : backfillStep cur p.1 = cur :=
        backfillStep_of_none cur p.1 p.2 hget (by simpa using hv)
      rw [hre]
      show (p.1 :: Store.keys rest).foldl backfillStep cur =
        cur ++ reverseEntries rest
      rw [List.foldl_cons, hstep]
      exact ih cur (fun r hr => h1 r (List.mem_cons_of_mem p hr))
        (fun r hr => h3 r (List.mem_cons_of_mem p hr))
        (by rw [hre] at h4; exact h4)
    | some q =>
      have hqnone : cur.get q.1 = none := h3 p (List.mem_cons_self p rest) q hv
      have hre : reverseEntries (p :: rest) = q :: reverseEntries rest := by
        simp [reverseEntries, List.filterMap_cons, hv]
      have hstep : backfillStep cur p.1 = cur ++ [q] := by
        rw [backfillStep_of_some cur p.1 p.2 q hget (by simpa using hv)]
        exact Store.set_eq_append cur q.1 q.2 hqnone
      have h4' : (q.1 :: Store.keys (reverseEntries rest)).Nodup := by
        rw [hre] at h4
        simpa [Store.keys] using h4
      have hq1 : q.1 ∉ Store.keys (reverseEntries rest) :=
        (List.nodup_cons.mp h4').1
      have ihres := ih (cur ++ [q])
        (fun r hr =>
          Store.get_append_some cur [q] r.1 r.2 (h1 r (List.mem_cons_of_mem p hr)))
        (fun r hr q' hq' => by
          have hbase : cur.get q'.1 = none := h3 r (List.mem_cons_of_mem p hr) q' hq'
          have hmem : q' ∈ reverseEntries rest :=
            List.mem_filterMap.mpr ⟨r, hr, hq'⟩
          have hne : q.1 ≠ q'.1 := by
            intro hh
            exact hq1 (hh ▸ List.mem_map_of_mem (·.1) hmem)
          rw [Store.get_append_none cur [q] q'.1 hbase]
          exact Store.get_singleton_ne q q'.1 hne)
        (List.nodup_cons.mp h4').2
      show (p.1 :: Store.keys rest).foldl backfillStep cur =
        cur ++ reverseEntries (p :: rest)
      rw [List.foldl_cons, hstep, ihres, hre, List.append_assoc,
        List.singleton_append]

theorem foldl_backfill_noop (todo : Store) : ∀ cur : Store,
    (∀ p ∈ todo, cur.get p.1 = some p.2) →
    (∀ p ∈ todo, ∀ q, toReverseEntry p = some q → cur.get q.1 = some q.2) →
    todo.keys.foldl backfillStep cur = cur := by
  induction todo with
  | nil =>
    intro cur _ _
    simp [Store.keys]
  | cons p rest ih =>
    intro cur h1 h2
    have hget : cur.get p.1 = some p.2 := h1 p (List.mem_cons_self p rest)
    have hstep : backfillStep cur p.1 = cur := by
      cases hv : toReverseEntry p with
      | none => exact backfillStep_of_none cur p.1 p.2 hget (by simpa using hv)
      | some q =>
        rw [backfillStep_of_some cur p.1 p.2 q hget (by simpa using hv)]
        exact Store.set_eq_of_get cur q.1 q.2
          (h2 p (List.mem_cons_self p rest) q hv)
    show (p.1 :: Store.keys rest).foldl backfillStep cur = cur
    rw [List.foldl_cons, hstep]
    exact ih cur (fun r hr => h1 r (List.mem_cons_of_mem p hr))
      (fun r hr => h2 r (List.mem_cons_of_mem p hr))

/-! ## Migration-level lemmas -/

theorem toReverseEntry_shape (p q : String × KVValue)
    (h : toReverseEntry p = some q) :
    ∃ m : UrlMapping, p.2 = KVValue.obj m ∧ m.originalUrl.isEmpty = false ∧
      q = ("url:" ++ hashUrl m.originalUrl, KVValue.str p.1) := by
  obtain ⟨k, v⟩ := p
  rcases v with s | m
  · simp [toReverseEntry] at h
  · by_cases he : m.originalUrl.isEmpty
    · simp [toReverseEntry, he] at h
    · simp [toReverseEntry, he] at h
      exact ⟨m, rfl, by simpa using he, h.symm⟩

theorem kvBackfillStep_eq (cur : Store) (k : String) :
    kvBackfillStep cur k = backfillStep cur k := by
  cases hget : cur.get k with
  | none => simp [kvBackfillStep, backfillStep, hget]
  | some v =>
    rcases v with s | m
    · by_cases hs : s.isEmpty <;>
        simp [kvBackfillStep, backfillStep, hget, KVValue.truthy,
          parseMapping, hs]
    · simp [kvBackfillStep, backfillStep, hget, KVValue.truthy, parseMapping]

theorem migrateVercelKvData_eq (s : Store) :
    migrateVercelKvData s = migrateRedisData s := by
  have hf : kvBackfillStep = backfillStep :=
    funext fun cur => funext fun k => kvBackfillStep_eq cur k
  simp [migrateVercelKvData, migrateRedisData, hf]

theorem reverseEntries_mkStore (l : List (String × UrlMapping))
    (hurl : ∀ p ∈ l, p.2.originalUrl ≠ "") :
    reverseEntries (mkStore l) = revOf l := by
  induction l with
  | nil => simp [reverseEntries, mkStore, revOf]
  | cons p rest ih =>
    have he : p.2.originalUrl.isEmpty = false :=
      isEmpty_false_of_ne (hurl p (List.mem_cons_self p rest))
    simp only [mkStore, List.map_cons, reverseEntries, List.filterMap_cons,
      toReverseEntry, he, Bool.false_eq_true, if_false, revOf]
    rw [show List.filterMap toReverseEntry (List.map
        (fun p => (p.1, KVValue.obj p.2)) rest) = reverseEntries (mkStore rest)
      from rfl]
    rw [ih (fun r hr => hurl r (List.mem_cons_of_mem p hr))]
    rfl

theorem revOf_keys_nodup (l : List (String × UrlMapping))
    (hhash : (l.map (fun p => hashUrl p.2.originalUrl)).Nodup) :
    (Store.keys (revOf l)).Nodup := by
  have hinj : Function.Injective (fun h : String => "url:" ++ h) :=
    fun a b hab => urlPrefix_inj hab
  have := hhash.map hinj
  simpa [revOf, Store.keys, List.map_map, Function.comp] using this

theorem mkStore_get_none_of_url (fw : List (String × UrlMapping))
    (hfwd : ∀ p ∈ fw, jsStartsWith p.1 "url:" = false) (x : String) :
    (mkStore fw).get ("url:" ++ x) = none := by
  apply Store.get_eq_none
  rw [mkStore_keys]
  intro hmem
  obtain ⟨p, hp, hpx⟩ := List.mem_map.mp hmem
  have := hfwd p hp
  rw [hpx, jsStartsWith_append] at this
  exact Bool.true_eq_false.mp this

/-- Completeness of a backfill run over a store holding only forward
mappings: every reverse entry is created, appended in order. -/
theorem migrateRedis_fresh (fw : List (String × UrlMapping))
    (hnd : (fw.map (·.1)).Nodup)
    (hfwd : ∀ p ∈ fw, jsStartsWith p.1 "url:" = false)
    (hurl : ∀ p ∈ fw, p.2.originalUrl ≠ "")
    (hhash : (fw.map (fun p => hashUrl p.2.originalUrl)).Nodup) :
    migrateRedisData (mkStore fw) = mkStore fw ++ revOf fw := by
  have hkeys : (Store.keys (mkStore fw)).filter
      (fun k => !jsStartsWith k "url:") = Store.keys (mkStore fw) := by
    apply List.filter_eq_self.mpr
    intro k hk
    rw [mkStore_keys] at hk
    obtain ⟨p, hp, hpk⟩ := List.mem_map.mp hk
    simp [← hpk, hfwd p hp]
  have hndk : (Store.keys (mkStore fw)).Nodup := by
    rw [mkStore_keys]; exact hnd
  have h1 : ∀ p ∈ mkStore fw, (mkStore fw).get p.1 = some p.2 :=
    fun p hp => Store.get_of_mem _ p hndk hp
  have h3 : ∀ p ∈ mkStore fw, ∀ q, toReverseEntry p = some q →
      (mkStore fw).get q.1 = none := by
    intro p _ q hq
    obtain ⟨m, _, _, hqe⟩ := toReverseEntry_shape p q hq
    rw [hqe]
    exact mkStore_get_none_of_url fw hfwd _
  have h4 : (Store.keys (reverseEntries (mkStore fw))).Nodup := by
    rw [reverseEntries_mkStore fw hurl]
    exact revOf_keys_nodup fw hhash
  calc migrateRedisData (mkStore fw)
      = (Store.keys (mkStore fw)).foldl backfillStep (mkStore fw) := by
        rw [migrateRedisData, hkeys]
    _ = mkStore fw ++ reverseEntries (mkStore fw) :=
        foldl_backfill_create (mkStore fw) (mkStore fw) h1 h3 h4
    _ = mkStore fw ++ revOf fw := by rw [reverseEntries_mkStore fw hurl]

/-- Idempotence of the backfill: a second run over the already-backfilled
store changes nothing. -/
theorem migrateRedis_second (fw : List (String × UrlMapping))
    (hnd : (fw.map (·.1)).Nodup)
    (hfwd : ∀ p ∈ fw, jsStartsWith p.1 "url:" = false)
    (hhash : (fw.map (fun p => hashUrl p.2.originalUrl)).Nodup) :
    migrateRedisData (mkStore fw ++ revOf fw) = mkStore fw ++ revOf fw := by
  have hkeys : (Store.keys (mkStore fw ++ revOf fw)).filter
      (fun k => !jsStartsWith k "url:") = Store.keys (mkStore fw) := by
    rw [Store.keys_append, List.filter_append]
    have hl : (Store.keys (mkStore fw)).filter
        (fun k => !jsStartsWith k "url:") = Store.keys (mkStore fw) := by
      apply List.filter_eq_self.mpr
      intro k hk
      rw [mkStore_keys] at hk
      obtain ⟨p, hp, hpk⟩ := List.mem_map.mp hk
      simp [← hpk, hfwd p hp]
    have hr : (Store.keys (revOf fw)).filter
        (fun k => !jsStartsWith k "url:") = [] := by
      apply List.filter_eq_nil_iff.mpr
      intro k hk
      rw [revOf_keys] at hk
      obtain ⟨p, _, hpk⟩ := List.mem_map.mp hk
      simp [← hpk, jsStartsWith_append]
    rw [hl, hr, List.append_nil]
  have hndk : (Store.keys (mkStore fw)).Nodup := by
    rw [mkStore_keys]; exact hnd
  have h1 : ∀ p ∈ mkStore fw,
      (mkStore fw ++ revOf fw).get p.1 = some p.2 :=
    fun p hp => Store.get_append_some _ _ _ _ (Store.get_of_mem _ p hndk hp)
  have h2 : ∀ p ∈ mkStore fw, ∀ q, toReverseEntry p = some q →
      (mkStore fw ++ revOf fw).get q.1 = some q.2 := by
    intro p hp q hq
    obtain ⟨m, hpm, _, hqe⟩ := toReverseEntry_shape p q hq
    obtain ⟨r, hr, hrp⟩ := List.mem_map.mp
      (show p ∈ List.map (fun r => (r.1, KVValue.obj r.2)) fw from hp)
    have hq_mem : q ∈ revOf fw := by
      rw [hqe]
      apply List.mem_map.mpr
      refine ⟨r, hr, ?_⟩
      have h2' : KVValue.obj r.2 = KVValue.obj m := by rw [← hpm, ← hrp]
      have hm : r.2 = m := by injection h2'
      have hk : r.1 = p.1 := by rw [← hrp]
      rw [hm, hk]
    have hnone : (mkStore fw).get q.1 = none := by
      rw [hqe]
      exact mkStore_get_none_of_url fw hfwd _
    rw [Store.get_append_none _ _ _ hnone]
    exact Store.get_of_mem _ q (revOf_keys_nodup fw hhash) hq_mem
  calc migrateRedisData (mkStore fw ++ revOf fw)
      = (Store.keys (mkStore fw)).foldl backfillStep (mkStore fw ++ revOf fw) := by
        rw [migrateRedisData, hkeys]
    _ = mkStore fw ++ revOf fw :=
        foldl_backfill_noop (mkStore fw) (mkStore fw ++ revOf fw) h1 h2

theorem store_get_none_of_url (s : Store)
    (h : ∀ k ∈ Store.keys s, jsStartsWith k "url:" = false) (x : String) :
    s.get ("url:" ++ x) = none := by
  apply Store.get_eq_none
  intro hmem
  have hfalse := h _ hmem
  rw [jsStartsWith_append] at hfalse
  exact Bool.noConfusion hfalse

/-! ## The claims -/

/-- C1: against a live store in which a valid URL has not been shortened
yet, `resolveOrCreate(U)` returns the freshly generated shortId with
`isExisting = false`, and calling it again immediately (with no
intervening call) returns the very same shortId with `isExisting = true`
and leaves the store untouched.  `newId1` is the id `generateShortId()`
produces in the first call (eight hex characters, hence nonempty); the id
drawn in the second call (`newId2`) is never used. -/
theorem claim1_resolveOrCreate_idempotent (s : Store)
    (url newId1 newId2 now1 now2 : String)
    (hurl : url.isEmpty = false) (hvalid : isValidUrl url = true)
    (hfresh : s.get (reverseKey url) = none)
    (hid : newId1.isEmpty = false) :
    (apiShorten s true url newId1 now1).1 =
      ShortenResult.shortened newId1 false ∧
    apiShorten (apiShorten s true url newId1 now1).2 true url newId2 now2 =
      (ShortenResult.shortened newId1 true,
        (apiShorten s true url newId1 now1).2) := by
  have h1 : apiShorten s true url newId1 now1 =
      (ShortenResult.shortened newId1 false,
        (s.set newId1 (.obj ⟨url, newId1, now1⟩)).set (reverseKey url)
          (.str newId1)) := by
    simp [apiShorten, hurl, hvalid, hfresh]
  refine ⟨by rw [h1], ?_⟩
  rw [h1]
  simp [apiShorten, hurl, hvalid, Store.get_set_self, KVValue.truthy, hid,
    KVValue.asShortId]

theorem claim1_witness :
    ("a:b" : String).isEmpty = false ∧ isValidUrl "a:b" = true ∧
    Store.get [] (reverseKey "a:b") = none ∧
    ("abcd1234" : String).isEmpty = false ∧
    ((apiShorten [] true "a:b" "abcd1234" "t1").1 =
      ShortenResult.shortened "abcd1234" false ∧
    apiShorten (apiShorten [] true "a:b" "abcd1234" "t1").2 true "a:b"
        "ffffffff" "t2" =
      (ShortenResult.shortened "abcd1234" true,
        (apiShorten [] true "a:b" "abcd1234" "t1").2)) :=
  ⟨by decide, by decide, by decide, by decide,
    claim1_resolveOrCreate_idempotent [] "a:b" "abcd1234" "ffffffff" "t1" "t2"
      (by decide) (by decide) (by decide) (by decide)⟩

/-- C2: after `resolveOrCreate(U)` returns a shortId `S` against a live
store, looking `S` up redirects to `U` exactly.  The hypothesis `hwf` is
the store well-formedness this program maintains: whenever the reverse
key of `U` holds a truthy shortId, the forward key it names holds a
mapping whose `originalUrl` is `U` (it holds vacuously for any store in
which `U` was never shortened, and is re-established by every successful
create).  `hid` says the fresh id is not itself the reverse key (ids are
eight hex characters, reverse keys start with `url:`). -/
theorem claim2_roundTrip (s : Store) (url newId now : String)
    (hurl : url.isEmpty = false) (hvalid : isValidUrl url = true)
    (hid : newId ≠ reverseKey url)
    (hwf : ∀ v, s.get (reverseKey url) = some v → v.truthy = true →
      ∃ m : UrlMapping, s.get v.asShortId = some (.obj m) ∧
        m.originalUrl = url) :
    ∃ S b, (apiShorten s true url newId now).1 =
        ShortenResult.shortened S b ∧
      apiResolve (apiShorten s true url newId now).2 true S =
        (ResolveResult.redirect url, (apiShorten s true url newId now).2) := by
  have hcreate : ∀ hres : apiShorten s true url newId now =
      (ShortenResult.shortened newId false,
        (s.set newId (.obj ⟨url, newId, now⟩)).set (reverseKey url)
          (.str newId)),
      ∃ S b, (apiShorten s true url newId now).1 =
          ShortenResult.shortened S b ∧
        apiResolve (apiShorten s true url newId now).2 true S =
          (ResolveResult.redirect url,
            (apiShorten s true url newId now).2) := by
    intro hres
    refine ⟨newId, false, by rw [hres], ?_⟩
    rw [hres]
    have hget : ((s.set newId (.obj ⟨url, newId, now⟩)).set (reverseKey url)
        (.str newId)).get newId = some (.obj ⟨url, newId, now⟩) := by
      rw [Store.get_set_ne _ _ _ _ hid]
      exact Store.get_set_self s newId _
    simp [apiResolve, hget]
  cases hg : s.get (reverseKey url) with
  | none =>
    exact hcreate (by simp [apiShorten, hurl, hvalid, hg])
  | some v =>
    cases hv : v.truthy with
    | false =>
      exact hcreate (by simp [apiShorten, hurl, hvalid, hg, hv])
    | true =>
      obtain ⟨m, hm, hmu⟩ := hwf v hg hv
      refine ⟨v.asShortId, true, ?_, ?_⟩
      · simp [apiShorten, hurl, hvalid, hg, hv]
      · have hres : apiShorten s true url newId now =
            (ShortenResult.shortened v.asShortId true, s) := by
          simp [apiShorten, hurl, hvalid, hg, hv]
        rw [hres]
        simp [apiResolve, hm, hmu]

theorem claim2_witness :
    ∃ S b, (apiShorten [] true "a:b" "abcd1234" "t1").1 =
        ShortenResult.shortened S b ∧
      apiResolve (apiShorten [] true "a:b" "abcd1234" "t1").2 true S =
        (ResolveResult.redirect "a:b",
          (apiShorten [] true "a:b" "abcd1234" "t1").2) :=
  claim2_roundTrip [] "a:b" "abcd1234" "t1" (by decide) (by decide)
    (by decide) (fun v hv => by simp [Store.get] at hv)

/-- C3 counterexample: the create path performs no forward-key occupancy
check.  With forward key `deadbeef` already mapping `a:b` (and its reverse
entry present), shortening the different URL `a:c` while
`generateShortId()` happens to draw the colliding id `deadbeef` silently
replaces the existing forward mapping — the claim's required
detect-and-regenerate behavior does not happen. -/
theorem claim3_counterexample :
    Store.get [("deadbeef", KVValue.obj ⟨"a:b", "deadbeef", "t0"⟩),
        (reverseKey "a:b", KVValue.str "deadbeef")] "deadbeef" =
      some (KVValue.obj ⟨"a:b", "deadbeef", "t0"⟩) ∧
    (apiShorten [("deadbeef", KVValue.obj ⟨"a:b", "deadbeef", "t0"⟩),
        (reverseKey "a:b", KVValue.str "deadbeef")] true "a:c" "deadbeef"
        "t1").2.get "deadbeef" =
      some (KVValue.obj ⟨"a:c", "deadbeef", "t1"⟩) :=
  ⟨by decide, by decide⟩

/-- C3 amended: when `resolveOrCreate` generates a new shortId it writes
the forward key unconditionally — there is no occupancy check, no
regeneration, and a pre-existing forward mapping under the same id
(belonging to a different URL) is silently overwritten; collision
avoidance rests solely on the randomness of the 8-hex-character id
space. -/
theorem claim3_amended (s : Store) (url newId now : String)
    (hurl : url.isEmpty = false) (hvalid : isValidUrl url = true)
    (hfresh : s.get (reverseKey url) = none)
    (hid : newId ≠ reverseKey url) :
    (apiShorten s true url newId now).2.get newId =
      some (KVValue.obj ⟨url, newId, now⟩) := by
  have hres : apiShorten s true url newId now =
      (ShortenResult.shortened newId false,
        (s.set newId (.obj ⟨url, newId, now⟩)).set (reverseKey url)
          (.str newId)) := by
    simp [apiShorten, hurl, hvalid, hfresh]
  rw [hres]
  show ((s.set newId (.obj ⟨url, newId, now⟩)).set (reverseKey url)
    (.str newId)).get newId = some (KVValue.obj ⟨url, newId, now⟩)
  rw [Store.get_set_ne _ _ _ _ hid]
  exact Store.get_set_self s newId _

theorem claim3_witness :
    (apiShorten [("deadbeef", KVValue.obj ⟨"a:b", "deadbeef", "t0"⟩),
        (reverseKey "a:b", KVValue.str "deadbeef")] true "a:c" "deadbeef"
        "t1").2.get "deadbeef" =
      some (KVValue.obj ⟨"a:c", "deadbeef", "t1"⟩) :=
  claim3_amended [("deadbeef", KVValue.obj ⟨"a:b", "deadbeef", "t0"⟩),
      (reverseKey "a:b", KVValue.str "deadbeef")] "a:c" "deadbeef" "t1"
    (by decide) (by decide) (by decide) (by decide)

/-- C4 counterexample: when no backend is reachable, the resolve path does
not fall back to the in-process map — it rejects the request with 500
`'Storage service not available'`, even for a shortId whose mapping exists
in the (unreachable) store.  Only the shorten path falls back. -/
theorem claim4_counterexample :
    apiResolve [("abcd1234", KVValue.obj ⟨"a:b", "abcd1234", "t0"⟩)] false
      "abcd1234" =
      (ResolveResult.storeUnavailable,
        [("abcd1234", KVValue.obj ⟨"a:b", "abcd1234", "t0"⟩)]) := by
  decide

/-- C4 amended: when no backend is reachable, the shorten operation falls
back to the in-process path and completes (for any well-formed URL), but
the resolve operation is rejected with a storage-unavailable error — the
"never rejected purely due to backend unavailability" guarantee holds only
for shorten. -/
theorem claim4_amended :
    (∀ (s : Store) (url newId now : String), url.isEmpty = false →
      isValidUrl url = true →
      apiShorten s false url newId now =
        (ShortenResult.fallbackShortened newId, s)) ∧
    (∀ (s : Store) (shortId : String),
      apiResolve s false shortId = (ResolveResult.storeUnavailable, s)) := by
  constructor
  · intro s url newId now hurl hvalid
    simp [apiShorten, hurl, hvalid]
  · intro s shortId
    simp [apiResolve]

theorem claim4_witness :
    apiShorten [] false "a:b" "abcd1234" "t1" =
      (ShortenResult.fallbackShortened "abcd1234", []) ∧
    apiResolve [] false "abcd1234" = (ResolveResult.storeUnavailable, []) :=
  ⟨claim4_amended.1 [] "a:b" "abcd1234" "t1" (by decide) (by decide),
    claim4_amended.2 [] "abcd1234"⟩

/-- C5 counterexample: the code's probe order is not the claimed one.
When both the Redis cache and the primary Vercel KV service answer their
probes, the code selects Redis (the local network cache), while the
claimed priority order — primary network KV service first — would select
Vercel KV. -/
theorem claim5_counterexample :
    selectBackend true (some true) true = Backend.redis ∧
    selectBackendSpec true (some true) true = Backend.vercelKV ∧
    Backend.redis ≠ Backend.vercelKV := by
  decide

/-- C5 amended: the selector probes the local network Redis cache first
(whenever its client is configured), then the primary Vercel KV service,
then falls back to the in-process map; moreover, when the Redis probe
throws, the KV probe is skipped entirely and the selector lands on the
in-process fallback. -/
theorem claim5_amended : ∀ (rc : Bool) (rp : Option Bool) (kv : Bool),
    (selectBackend rc rp kv = Backend.redis ↔ rc = true ∧ rp = some true) ∧
    (selectBackend rc rp kv = Backend.vercelKV ↔
      kv = true ∧ (rc = false ∨ rp = some false)) ∧
    (selectBackend rc rp kv = Backend.memory ↔
      (rc = true ∧ rp = none) ∨
        (kv = false ∧ (rc = false ∨ rp = some false))) := by
  decide

theorem claim5_witness :
    selectBackend true (some true) true = Backend.redis :=
  (claim5_amended true (some true) true).1.mpr ⟨rfl, rfl⟩

/-- C6: a string that is not a syntactically well-formed absolute URL is
rejected with an invalid-input error (400) before any backend probe or
store access — for every store and every probe outcome the store is
returned unchanged, so zero writes are performed.  The empty string takes
the `URL is required` guard, every other invalid string the
`Invalid URL format` guard. -/
theorem claim6_invalid_rejected (s : Store) (up : Bool)
    (url newId now : String) (hinvalid : isValidUrl url = false) :
    apiShorten s up url newId now =
      (ShortenResult.invalidInput
        (if url.isEmpty then "URL is required" else "Invalid URL format"),
        s) := by
  cases he : url.isEmpty
  · simp [apiShorten, he, hinvalid]
  · simp [apiShorten, he]

theorem claim6_witness :
    isValidUrl "not a url" = false ∧
    apiShorten [] true "not a url" "abcd1234" "t1" =
      (ShortenResult.invalidInput "Invalid URL format", []) :=
  ⟨by decide,
    claim6_invalid_rejected [] true "not a url" "abcd1234" "t1" (by decide)⟩

/-- C7: the lookup handler never writes — for every store, probe outcome
and shortId the store comes back unchanged — and when the active store has
no forward mapping for the shortId it answers 404 Not Found. -/
theorem claim7_lookup_notFound_pure :
    (∀ (s : Store) (up : Bool) (shortId : String),
      (apiResolve s up shortId).2 = s) ∧
    (∀ (s : Store) (shortId : String), s.get shortId = none →
      apiResolve s true shortId = (ResolveResult.notFound, s)) := by
  constructor
  · intro s up shortId
    cases up
    · simp [apiResolve]
    · cases hg : s.get shortId with
      | none => simp [apiResolve, hg]
      | some v =>
        rcases v with t | m
        · cases ht : t.isEmpty <;> simp [apiResolve, hg, ht]
        · simp [apiResolve, hg]
  · intro s shortId hg
    simp [apiResolve, hg]

theorem claim7_witness :
    (apiResolve [] true "nonexistent").2 = [] ∧
    apiResolve [] true "nonexistent" = (ResolveResult.notFound, []) :=
  ⟨claim7_lookup_notFound_pure.1 [] true "nonexistent",
    claim7_lookup_notFound_pure.2 [] "nonexistent" (by decide)⟩

/-- C8: over a store holding exactly `N` forward mappings (keys outside
the `url:` namespace, distinct, with distinct URL digests — distinct URLs
have distinct digests up to an MD5 collision, which the spec's
"collision-resistant digest" assumption excludes) and no reverse entries,
both backfill variants append exactly `N` reverse entries, one per
forward mapping (`revOf fw` pairs entry `i` with forward mapping `i`),
excluding `url:`-prefixed keys from enumeration; and running either
again afterward changes nothing — zero additional entries, every reverse
entry left as it was. -/
theorem claim8_backfill (fw : List (String × UrlMapping))
    (hnd : (fw.map (·.1)).Nodup)
    (hfwd : ∀ p ∈ fw, jsStartsWith p.1 "url:" = false)
    (hurl : ∀ p ∈ fw, p.2.originalUrl ≠ "")
    (hhash : (fw.map (fun p => hashUrl p.2.originalUrl)).Nodup) :
    migrateRedisData (mkStore fw) = mkStore fw ++ revOf fw ∧
    (revOf fw).length = fw.length ∧
    migrateRedisData (migrateRedisData (mkStore fw)) =
      migrateRedisData (mkStore fw) ∧
    migrateVercelKvData (mkStore fw) = mkStore fw ++ revOf fw ∧
    migrateVercelKvData (migrateVercelKvData (mkStore fw)) =
      migrateVercelKvData (mkStore fw) := by
  have h1 := migrateRedis_fresh fw hnd hfwd hurl hhash
  have h2 := migrateRedis_second fw hnd hfwd hhash
  refine ⟨h1, by simp [revOf], ?_, ?_, ?_⟩
  · rw [h1]; exact h2
  · rw [migrateVercelKvData_eq]; exact h1
  · rw [migrateVercelKvData_eq, migrateVercelKvData_eq, h1]; exact h2

/-- Concrete two-mapping store used to witness the backfill claims. -/
def sampleFw : List (String × UrlMapping) :=
  [("aaaa1111", ⟨"a:b", "aaaa1111", "t1"⟩),
   ("bbbb2222", ⟨"a:c", "bbbb2222", "t2"⟩)]

theorem claim8_witness :
    migrateRedisData (mkStore sampleFw) = mkStore sampleFw ++ revOf sampleFw ∧
    (revOf sampleFw).length = sampleFw.length ∧
    migrateRedisData (migrateRedisData (mkStore sampleFw)) =
      migrateRedisData (mkStore sampleFw) ∧
    migrateVercelKvData (mkStore sampleFw) =
      mkStore sampleFw ++ revOf sampleFw ∧
    migrateVercelKvData (migrateVercelKvData (mkStore sampleFw)) =
      migrateVercelKvData (mkStore sampleFw) :=
  claim8_backfill sampleFw (by decide) (by decide) (by decide) (by decide)

/-- C9: a stored blob that fails to deserialize is skipped and only
skipped: with a corrupt entry `(kc, blob)` sitting between forward
mappings `A` and `B`, the backfill terminates normally (it is a total
function — the per-key `try`/`catch` keeps the scan alive), appends the
reverse entries of every valid mapping before and after the corrupt key,
and derives no reverse entry whatsoever from the corrupt key. -/
theorem claim9_backfill_skips_corrupt (A B : List (String × UrlMapping))
    (kc blob : String)
    (hnd : (Store.keys
      (mkStore A ++ [(kc, KVValue.str blob)] ++ mkStore B)).Nodup)
    (hfwd : ∀ p ∈ A ++ B, jsStartsWith p.1 "url:" = false)
    (hkc : jsStartsWith kc "url:" = false)
    (hurl : ∀ p ∈ A ++ B, p.2.originalUrl ≠ "")
    (hhash : ((A ++ B).map (fun p => hashUrl p.2.originalUrl)).Nodup) :
    migrateRedisData (mkStore A ++ [(kc, KVValue.str blob)] ++ mkStore B) =
      (mkStore A ++ [(kc, KVValue.str blob)] ++ mkStore B) ++
        (revOf A ++ revOf B) := by
  have hall : ∀ k ∈ Store.keys
      (mkStore A ++ [(kc, KVValue.str blob)] ++ mkStore B),
      jsStartsWith k "url:" = false := by
    intro k hk
    rw [Store.keys_append, Store.keys_append] at hk
    rcases List.mem_append.mp hk with hk1 | hk3
    rcases List.mem_append.mp hk1 with hkA | hkM
    · rw [mkStore_keys] at hkA
      obtain ⟨p, hp, hpk⟩ := List.mem_map.mp hkA
      exact hpk ▸ hfwd p (List.mem_append_left B hp)
    · have : k = kc := by simpa [Store.keys] using hkM
      exact this ▸ hkc
    · rw [mkStore_keys] at hk3
      obtain ⟨p, hp, hpk⟩ := List.mem_map.mp hk3
      exact hpk ▸ hfwd p (List.mem_append_right A hp)
  have hfilter : (Store.keys
      (mkStore A ++ [(kc, KVValue.str blob)] ++ mkStore B)).filter
      (fun k => !jsStartsWith k "url:") =
      Store.keys (mkStore A ++ [(kc, KVValue.str blob)] ++ mkStore B) :=
    List.filter_eq_self.mpr (fun k hk => by simp [hall k hk])
  have h1 : ∀ p ∈ mkStore A ++ [(kc, KVValue.str blob)] ++ mkStore B,
      (mkStore A ++ [(kc, KVValue.str blob)] ++ mkStore B).get p.1 =
        some p.2 :=
    fun p hp => Store.get_of_mem _ p hnd hp
  have hre : reverseEntries
      (mkStore A ++ [(kc, KVValue.str blob)] ++ mkStore B) =
      revOf A ++ revOf B := by
    show List.filterMap toReverseEntry _ = _
    rw [List.filterMap_append, List.filterMap_append]
    have hA : List.filterMap toReverseEntry (mkStore A) = revOf A :=
      reverseEntries_mkStore A (fun p hp => hurl p (List.mem_append_left B hp))
    have hB : List.filterMap toReverseEntry (mkStore B) = revOf B :=
      reverseEntries_mkStore B (fun p hp => hurl p (List.mem_append_right A hp))
    have hM : List.filterMap toReverseEntry [(kc, KVValue.str blob)] = [] := by
      simp [toReverseEntry]
    rw [hA, hB, hM, List.append_nil]
  have h3 : ∀ p ∈ mkStore A ++ [(kc, KVValue.str blob)] ++ mkStore B,
      ∀ q, toReverseEntry p = some q →
      (mkStore A ++ [(kc, KVValue.str blob)] ++ mkStore B).get q.1 = none := by
    intro p _ q hq
    obtain ⟨m, _, _, hqe⟩ := toReverseEntry_shape p q hq
    rw [hqe]
    exact store_get_none_of_url _ hall _
  have h4 : (Store.keys (reverseEntries
      (mkStore A ++ [(kc, KVValue.str blob)] ++ mkStore B))).Nodup := by
    rw [hre]
    have : revOf A ++ revOf B = revOf (A ++ B) := by
      simp [revOf]
    rw [this]
    exact revOf_keys_nodup (A ++ B) hhash
  calc migrateRedisData (mkStore A ++ [(kc, KVValue.str blob)] ++ mkStore B)
      = (Store.keys (mkStore A ++ [(kc, KVValue.str blob)] ++
          mkStore B)).foldl backfillStep
          (mkStore A ++ [(kc, KVValue.str blob)] ++ mkStore B) := by
        rw [migrateRedisData, hfilter]
    _ = (mkStore A ++ [(kc, KVValue.str blob)] ++ mkStore B) ++
          reverseEntries (mkStore A ++ [(kc, KVValue.str blob)] ++
            mkStore B) :=
        foldl_backfill_create _ _ h1 h3 h4
    _ = (mkStore A ++ [(kc, KVValue.str blob)] ++ mkStore B) ++
          (revOf A ++ revOf B) := by rw [hre]

theorem claim9_witness :
    migrateRedisData (mkStore [("aaaa1111", ⟨"a:b", "aaaa1111", "t1"⟩)] ++
        [("cccc3333", KVValue.str "not json")] ++
        mkStore [("bbbb2222", ⟨"a:c", "bbbb2222", "t2"⟩)]) =
      (mkStore [("aaaa1111", ⟨"a:b", "aaaa1111", "t1"⟩)] ++
        [("cccc3333", KVValue.str "not json")] ++
        mkStore [("bbbb2222", ⟨"a:c", "bbbb2222", "t2"⟩)]) ++
      (revOf [("aaaa1111", ⟨"a:b", "aaaa1111", "t1"⟩)] ++
        revOf [("bbbb2222", ⟨"a:c", "bbbb2222", "t2"⟩)]) :=
  claim9_backfill_skips_corrupt [("aaaa1111", ⟨"a:b", "aaaa1111", "t1"⟩)]
    [("bbbb2222", ⟨"a:c", "bbbb2222", "t2"⟩)] "cccc3333" "not json"
    (by decide) (by decide) (by decide) (by decide) (by decide)

/-- C10: when no backend answers its probe, the shorten fallback keeps the
new mapping only in an array created inside that single request (the
shared store comes back unchanged, so the mapping is discarded with the
request), the response is the bare `{ shortUrl }` shape — the
`fallbackShortened` constructor, which carries no `isExisting` field and
applies no deduplication — and the returned shortId, being absent from
the shared store, is never resolvable afterwards: a later lookup answers
404 against a live store and the storage-unavailable 500 otherwise. -/
theorem claim10_fallback_transient (s : Store) (url newId now : String)
    (hurl : url.isEmpty = false) (hvalid : isValidUrl url = true) :
    apiShorten s false url newId now =
      (ShortenResult.fallbackShortened newId, s) ∧
    (s.get newId = none →
      apiResolve s true newId = (ResolveResult.notFound, s) ∧
      apiResolve s false newId = (ResolveResult.storeUnavailable, s)) := by
  refine ⟨by simp [apiShorten, hurl, hvalid], fun hg => ⟨?_, ?_⟩⟩
  · simp [apiResolve, hg]
  · simp [apiResolve]

theorem claim10_witness :
    apiShorten [] false "a:b" "ffff0000" "t1" =
      (ShortenResult.fallbackShortened "ffff0000", []) ∧
    (apiResolve [] true "ffff0000" = (ResolveResult.notFound, []) ∧
      apiResolve [] false "ffff0000" =
        (ResolveResult.storeUnavailable, [])) :=
  ⟨(claim10_fallback_transient [] "a:b" "ffff0000" "t1" (by decide)
      (by decide)).1,
    (claim10_fallback_transient [] "a:b" "ffff0000" "t1" (by decide)
      (by decide)).2 (by decide)⟩

end ShortUrl
